import Mathlib

/-!
Verification of the dynamic-pooling object pool library.

The library is a bounded object pool built from three parts:
a lock-free bounded queue (crossbeam ArrayQueue, the external store),
a reference-counted pool front-end (Pool, an Arc over the store), and
an RAII wrapper (Pooled) holding one value plus a weak back-reference.

The embedding below models the single shared store of one pool as an
explicit state (PoolSt): the Arc strong count (number of live Pool
handles), the Arc weak count (number of live Pooled wrappers, since each
wrapper holds exactly one Weak), and the queue contents. Every public
operation of src/pool.rs and src/object.rs becomes a state-passing
function. A Rust panic is modelled as a returned none; operations that
cannot panic are total.
-/

namespace DynPool

/-- The Reset trait of src/reset.rs: reset to the default state while
keeping allocated memory. Rust mutates in place; the model is a pure
function on the value. -/
class Reset (α : Type) where
  reset : α → α

/-- The Default trait bound required of pooled types (core::default). -/
class Default (α : Type) where
  default : α

/-- Model of crossbeam ArrayQueue, the bounded MPMC FIFO store: a fixed
capacity and the current items, front of the list popped first. -/
structure ArrayQueue (α : Type) where
  capacity : Nat
  items : List α
deriving DecidableEq

/-- ArrayQueue::new. -/
def ArrayQueue.new (α : Type) (capacity : Nat) : ArrayQueue α :=
  { capacity := capacity, items := [] }

/-- ArrayQueue::push: appends when not full and reports success; when
full the value is rejected and the queue is unchanged. -/
def ArrayQueue.push (q : ArrayQueue α) (x : α) : ArrayQueue α × Bool :=
  if q.items.length < q.capacity then
    ({ q with items := q.items ++ [x] }, true)
  else
    (q, false)

/-- ArrayQueue::pop: removes and returns the front item when present. -/
def ArrayQueue.pop (q : ArrayQueue α) : Option α × ArrayQueue α :=
  match q.items with
  | [] => (none, q)
  | x :: rest => (some x, { q with items := rest })

/-- ArrayQueue::len. -/
def ArrayQueue.len (q : ArrayQueue α) : Nat := q.items.length

/-- ArrayQueue::is_empty. -/
def ArrayQueue.is_empty (q : ArrayQueue α) : Bool := q.items.isEmpty

/-- ArrayQueue::is_full. -/
def ArrayQueue.is_full (q : ArrayQueue α) : Bool := q.items.length == q.capacity

/-- The shared state behind one pool: the Arc strong count (live Pool
handles, src/pool.rs line 8), the Arc weak count (live Pooled wrappers,
read back by Pool::in_use), and the ArrayQueue (PoolInner). -/
structure PoolSt (α : Type) where
  strong : Nat
  weak : Nat
  queue : ArrayQueue α
deriving DecidableEq

/-- The Pooled wrapper of src/object.rs: the owned value slot, Some
until detached. The weak back-reference it holds is accounted in
PoolSt.weak; whether it can upgrade is decided by PoolSt.strong. -/
structure Pooled (α : Type) where
  object : Option α
deriving DecidableEq

/-- Pooled::new: wrap the object and downgrade the Arc, registering one
more weak reference. -/
def Pooled.new (object : α) (s : PoolSt α) : Pooled α × PoolSt α :=
  ({ object := some object }, { s with weak := s.weak + 1 })

/-- Pool::new: asserts capacity is more than 0 (none models the panic),
then allocates a fresh store with one strong handle. -/
def Pool.new (α : Type) (capacity : Nat) : Option (PoolSt α) :=
  if capacity > 0 then
    some { strong := 1, weak := 0, queue := ArrayQueue.new α capacity }
  else
    none

/-- Pool::take: pop from the store, defaulting when empty, and wrap. -/
def Pool.take [Default α] (s : PoolSt α) : Pooled α × PoolSt α :=
  match s.queue.pop with
  | (popped, q) => Pooled.new (popped.getD Default.default) { s with queue := q }

/-- Pool::try_take: pop from the store and wrap; none when empty, and no
default value is ever constructed. -/
def Pool.try_take (s : PoolSt α) : Option (Pooled α) × PoolSt α :=
  match s.queue.pop with
  | (none, q) => (none, { s with queue := q })
  | (some x, q) =>
    match Pooled.new x { s with queue := q } with
    | (p, s2) => (some p, s2)

/-- Pool::len. -/
def Pool.len (s : PoolSt α) : Nat := s.queue.len

/-- Pool::in_use: Arc::weak_count of the store. -/
def Pool.in_use (s : PoolSt α) : Nat := s.weak

/-- Pool::is_empty. -/
def Pool.is_empty (s : PoolSt α) : Bool := s.queue.is_empty

/-- Pool::is_full. -/
def Pool.is_full (s : PoolSt α) : Bool := s.queue.is_full

/-- Pool::capacity. -/
def Pool.capacity (s : PoolSt α) : Nat := s.queue.capacity

/-- Pool::spare_capacity: capacity minus len, a usize subtraction in the
source (sound only while len never exceeds capacity). -/
def Pool.spare_capacity (s : PoolSt α) : Nat := Pool.capacity s - Pool.len s

/-- Pool::attach: wrap an externally supplied object. -/
def Pool.attach (s : PoolSt α) (object : α) : Pooled α × PoolSt α :=
  Pooled.new object s

/-- Clone for Pool: one more strong handle to the same store. -/
def Pool.clone (s : PoolSt α) : PoolSt α := { s with strong := s.strong + 1 }

/-- Dropping one Pool handle: the strong count decreases. -/
def Pool.drop (s : PoolSt α) : PoolSt α := { s with strong := s.strong - 1 }

/-- Pooled::detach: this.object.take().expect("always some"). The fst
is the extracted value (none models the panic on an already empty slot);
the snd is the now inert wrapper, which Rust then drops. -/
def Pooled.detach (p : Pooled α) : Option α × Pooled α :=
  (p.object, { p with object := none })

/-- Pooled::get_pool: upgrade the weak reference; a success returns a
new Pool handle (one more strong reference to the same store). -/
def Pooled.get_pool (p : Pooled α) (s : PoolSt α) : Option Unit × PoolSt α :=
  if s.strong > 0 then (some (), { s with strong := s.strong + 1 })
  else (none, s)

/-- Drop for Pooled: when the weak reference upgrades (some strong
handle is left) and the slot is still present, reset the object and
attempt a push, discarding the push result; in every case the weak
reference held by the wrapper is released. -/
def Pooled.drop [Reset α] (p : Pooled α) (s : PoolSt α) : PoolSt α :=
  let s1 :=
    if s.strong > 0 then
      match p.object with
      | some object => { s with queue := (s.queue.push (Reset.reset object)).1 }
      | none => s
    else s
  { s1 with weak := s1.weak - 1 }

/-- Deref for Pooled: self.object.as_ref().expect("always some"); none
models the panic. -/
def Pooled.deref (p : Pooled α) : Option α := p.object

/-- DerefMut for Pooled, applied to one in-place mutation f of the
value; none models the panic on an empty slot. -/
def Pooled.deref_mut (p : Pooled α) (f : α → α) : Option (Pooled α) :=
  match p.object with
  | some v => some { p with object := some (f v) }
  | none => none

/-- Take n values in a row (iterated Pool::take), returning the wrappers
in order together with the final state. -/
def takeN [Default α] (s : PoolSt α) : Nat → List (Pooled α) × PoolSt α
  | 0 => ([], s)
  | n + 1 =>
    match Pool.take s with
    | (p, s1) =>
      match takeN s1 n with
      | (ps, s2) => (p :: ps, s2)

/-- Drop a list of wrappers in order. -/
def dropAll [Reset α] : List (Pooled α) → PoolSt α → PoolSt α
  | [], s => s
  | p :: ps, s => dropAll ps (Pooled.drop p s)

/-- One public API step on the shared state, closing over every
operation of src/pool.rs and src/object.rs that touches it. -/
inductive Step [Default α] [Reset α] : PoolSt α → PoolSt α → Prop
  | take (s : PoolSt α) : Step s (Pool.take s).2
  | try_take (s : PoolSt α) : Step s (Pool.try_take s).2
  | attach (s : PoolSt α) (v : α) : Step s (Pool.attach s v).2
  | wrapper_drop (s : PoolSt α) (p : Pooled α) : Step s (Pooled.drop p s)
  | get_pool (s : PoolSt α) (p : Pooled α) : Step s (Pooled.get_pool p s).2
  | clone (s : PoolSt α) : Step s (Pool.clone s)
  | pool_drop (s : PoolSt α) : Step s (Pool.drop s)

/-- States reachable from a given state by public API steps. -/
inductive Reachable [Default α] [Reset α] : PoolSt α → PoolSt α → Prop
  | refl (s : PoolSt α) : Reachable s s
  | step {s t u : PoolSt α} : Reachable s t → Step t u → Reachable s u

/-- Model of Vec from src/reset.rs: the elements (the observable part)
plus the reserved backing capacity. -/
structure Vec (α : Type) where
  data : List α
  cap : Nat
deriving DecidableEq

/-- Vec::clear: drop the elements, keep the capacity. -/
def Vec.clear (v : Vec α) : Vec α := { v with data := [] }

instance : Reset (Vec α) := ⟨Vec.clear⟩

instance : Default (Vec α) := ⟨{ data := [], cap := 0 }⟩

/-- Model of String from src/reset.rs: the characters plus the reserved
backing capacity. -/
structure Str where
  data : List Char
  cap : Nat
deriving DecidableEq

/-- String::clear: drop the characters, keep the capacity. -/
def Str.clear (v : Str) : Str := { v with data := [] }

instance : Reset Str := ⟨Str.clear⟩

instance : Default Str := ⟨{ data := [], cap := 0 }⟩

/-- Model of VecDeque from src/reset.rs. -/
structure VecDeque (α : Type) where
  data : List α
  cap : Nat
deriving DecidableEq

/-- VecDeque::clear. -/
def VecDeque.clear (v : VecDeque α) : VecDeque α := { v with data := [] }

instance : Reset (VecDeque α) := ⟨VecDeque.clear⟩

/-- Model of BinaryHeap from src/reset.rs. -/
structure BinaryHeap (α : Type) where
  data : List α
  cap : Nat
deriving DecidableEq

/-- BinaryHeap::clear. -/
def BinaryHeap.clear (v : BinaryHeap α) : BinaryHeap α := { v with data := [] }

instance : Reset (BinaryHeap α) := ⟨BinaryHeap.clear⟩

/-- Model of PathBuf from src/reset.rs: the path characters plus the
reserved backing capacity. -/
structure PathBuf where
  data : List Char
  cap : Nat
deriving DecidableEq

/-- PathBuf::clear: drop the characters, keep the capacity. -/
def PathBuf.clear (v : PathBuf) : PathBuf := { v with data := [] }

instance : Reset PathBuf := ⟨PathBuf.clear⟩

/-- Model of OsString from src/reset.rs: the characters plus the
reserved backing capacity. -/
structure OsString where
  data : List Char
  cap : Nat
deriving DecidableEq

/-- OsString::clear: drop the characters, keep the capacity. -/
def OsString.clear (v : OsString) : OsString := { v with data := [] }

instance : Reset OsString := ⟨OsString.clear⟩

/-- Model of HashMap from src/reset.rs: entries plus reserved table
capacity. -/
structure HashMap (κ υ : Type) where
  entries : List (κ × υ)
  cap : Nat
deriving DecidableEq

/-- HashMap::clear. -/
def HashMap.clear (v : HashMap κ υ) : HashMap κ υ := { v with entries := [] }

instance : Reset (HashMap κ υ) := ⟨HashMap.clear⟩

/-- Model of HashSet from src/reset.rs. -/
structure HashSet (κ : Type) where
  entries : List κ
  cap : Nat
deriving DecidableEq

/-- HashSet::clear. -/
def HashSet.clear (v : HashSet κ) : HashSet κ := { v with entries := [] }

instance : Reset (HashSet κ) := ⟨HashSet.clear⟩

/-- Model of Box from src/reset.rs: an owning indirection. -/
structure Box (α : Type) where
  get : α
deriving DecidableEq

/-- Reset for Box delegates to the pointee. -/
instance [Reset α] : Reset (Box α) := ⟨fun b => { get := Reset.reset b.get }⟩

/-- Reset for a mutable reference delegates to the pointee; a mutable
borrow is modelled as the borrowed value itself. -/
structure MutRef (α : Type) where
  get : α
deriving DecidableEq

instance [Reset α] : Reset (MutRef α) := ⟨fun b => { get := Reset.reset b.get }⟩

/-- The tuple_hell instances of src/reset.rs, one arity case: reset each
component in declared order. Rust tuples of arity up to 13 are nested
pairs in this model, so this instance covers every generated arity. -/
instance [Reset α] [Reset β] : Reset (α × β) :=
  ⟨fun x => (Reset.reset x.1, Reset.reset x.2)⟩

/-- The store invariant: the queue never holds more items than its
capacity. -/
def Inv (s : PoolSt α) : Prop := s.queue.items.length ≤ s.queue.capacity

/-- Concrete pool state over Vec Nat, for the closed examples. -/
def exSt (strong weak cap : Nat) (items : List (Vec Nat)) : PoolSt (Vec Nat) :=
  { strong := strong, weak := weak, queue := { capacity := cap, items := items } }

/-- Concrete vector, for the closed examples. -/
def exVec (data : List Nat) (cap : Nat) : Vec Nat := { data := data, cap := cap }

/-- Concrete wrapper over Vec Nat, for the closed examples. -/
def exW (o : Option (Vec Nat)) : Pooled (Vec Nat) := { object := o }

/- Helper lemmas about the queue operations. -/

theorem push_capacity (q : ArrayQueue α) (x : α) :
    ((q.push x).1).capacity = q.capacity := by
  unfold ArrayQueue.push
  split <;> rfl

theorem push_len_le (q : ArrayQueue α) (x : α) (h : q.items.length ≤ q.capacity) :
    ((q.push x).1).items.length ≤ q.capacity := by
  unfold ArrayQueue.push
  split
  · simp
    omega
  · simpa using h

theorem push_append (q : ArrayQueue α) (x : α) (h : q.items.length < q.capacity) :
    (q.push x).1 = { q with items := q.items ++ [x] } := by
  unfold ArrayQueue.push
  split
  · rfl
  · omega

theorem push_full (q : ArrayQueue α) (x : α) (h : ¬ q.items.length < q.capacity) :
    (q.push x).1 = q := by
  unfold ArrayQueue.push
  split
  · omega
  · rfl

theorem pop_capacity (q : ArrayQueue α) : ((q.pop).2).capacity = q.capacity := by
  unfold ArrayQueue.pop
  split <;> rfl

theorem pop_len_le (q : ArrayQueue α) : ((q.pop).2).items.length ≤ q.items.length := by
  unfold ArrayQueue.pop
  split
  · simp
  · simp_all

/- Helper lemmas about the wrapper drop. -/

theorem drop_some_strong [Reset α] (p : Pooled α) (s : PoolSt α) (v : α)
    (hs : 0 < s.strong) (ho : p.object = some v) :
    Pooled.drop p s =
      { s with queue := (s.queue.push (Reset.reset v)).1, weak := s.weak - 1 } := by
  simp [Pooled.drop, hs, ho]

theorem drop_none [Reset α] (p : Pooled α) (s : PoolSt α) (ho : p.object = none) :
    Pooled.drop p s = { s with weak := s.weak - 1 } := by
  unfold Pooled.drop
  split <;> simp [ho]

theorem drop_dead [Reset α] (p : Pooled α) (s : PoolSt α) (hs : s.strong = 0) :
    Pooled.drop p s = { s with weak := s.weak - 1 } := by
  simp [Pooled.drop, hs]

/- Helper lemmas about take and try_take. -/

theorem take_of_empty [Default α] (s : PoolSt α) (h : s.queue.items = []) :
    Pool.take s =
      ({ object := some Default.default }, { s with weak := s.weak + 1 }) := by
  obtain ⟨st, w, cap, items⟩ := s
  simp only at h
  subst h
  simp [Pool.take, ArrayQueue.pop, Pooled.new]

theorem take_of_cons [Default α] (s : PoolSt α) (x : α) (rest : List α)
    (h : s.queue.items = x :: rest) :
    Pool.take s =
      ({ object := some x },
       { s with queue := { s.queue with items := rest }, weak := s.weak + 1 }) := by
  obtain ⟨st, w, cap, items⟩ := s
  simp only at h
  subst h
  simp [Pool.take, ArrayQueue.pop, Pooled.new]

theorem try_take_of_empty (s : PoolSt α) (h : s.queue.items = []) :
    Pool.try_take s = (none, s) := by
  obtain ⟨st, w, cap, items⟩ := s
  simp only at h
  subst h
  simp [Pool.try_take, ArrayQueue.pop]

theorem try_take_of_cons (s : PoolSt α) (x : α) (rest : List α)
    (h : s.queue.items = x :: rest) :
    Pool.try_take s =
      (some { object := some x },
       { s with queue := { s.queue with items := rest }, weak := s.weak + 1 }) := by
  obtain ⟨st, w, cap, items⟩ := s
  simp only at h
  subst h
  simp [Pool.try_take, ArrayQueue.pop, Pooled.new]

theorem take_effect [Default α] (s : PoolSt α) :
    (Pool.take s).2.queue = (s.queue.pop).2 ∧
    (Pool.take s).2.weak = s.weak + 1 ∧
    (Pool.take s).2.strong = s.strong := by
  rcases hq : s.queue.pop with ⟨popped, q⟩
  simp [Pool.take, hq, Pooled.new]

theorem try_take_effect (s : PoolSt α) :
    (Pool.try_take s).2.queue = (s.queue.pop).2 ∧
    (Pool.try_take s).2.strong = s.strong := by
  rcases hq : s.queue.pop with ⟨popped, q⟩
  cases popped <;> simp [Pool.try_take, hq, Pooled.new]

/- Iterated take from an empty store: each take manufactures a default
value, the store stays empty, and the weak count grows by one per
wrapper. -/

theorem takeN_of_empty [Default α] (n : Nat) :
    ∀ s : PoolSt α, s.queue.items = [] →
      (takeN s n).2 = { s with weak := s.weak + n } ∧
      (takeN s n).1.length = n ∧
      ∀ p ∈ (takeN s n).1, p.object = some Default.default := by
  induction n with
  | zero =>
    intro s h
    refine ⟨by simp [takeN], by simp [takeN], ?_⟩
    intro p hp
    simp [takeN] at hp
  | succ n ih =>
    intro s h
    have ht := take_of_empty s h
    obtain ⟨h2, hlen, h1⟩ := ih { s with weak := s.weak + 1 } (by simpa using h)
    rcases hres : takeN { s with weak := s.weak + 1 } n with ⟨ps, s2⟩
    rw [hres] at h2 hlen h1
    simp only at h2 hlen h1
    simp only [takeN, ht, hres]
    refine ⟨?_, by simpa using hlen, ?_⟩
    · rw [h2]
      have hw : s.weak + 1 + n = s.weak + (n + 1) := by omega
      simp [hw]
    · intro p hp
      rcases List.mem_cons.mp hp with h3 | h3
      · rw [h3]
      · exact h1 p h3

/- Dropping wrappers back: with a live pool and enough spare capacity
every drop pushes one reset value, so the store grows by one per
wrapper and the weak count shrinks by one per wrapper. -/

theorem dropAll_effect [Reset α] :
    ∀ (ps : List (Pooled α)) (s : PoolSt α), 0 < s.strong →
      (∀ p ∈ ps, p.object.isSome) →
      s.queue.items.length + ps.length ≤ s.queue.capacity →
      (dropAll ps s).strong = s.strong ∧
      (dropAll ps s).weak = s.weak - ps.length ∧
      (dropAll ps s).queue.capacity = s.queue.capacity ∧
      (dropAll ps s).queue.items.length = s.queue.items.length + ps.length := by
  intro ps
  induction ps with
  | nil =>
    intro s _ _ _
    simp [dropAll]
  | cons p ps ih =>
    intro s hs hall hcap
    simp only [List.length_cons] at hcap
    obtain ⟨v, hv⟩ := Option.isSome_iff_exists.mp (hall p (List.mem_cons_self p ps))
    have hlt : s.queue.items.length < s.queue.capacity := by
      omega
    have hd : Pooled.drop p s =
        { s with queue := { s.queue with items := s.queue.items ++ [Reset.reset v] },
                 weak := s.weak - 1 } := by
      rw [drop_some_strong p s v hs hv, push_append s.queue (Reset.reset v) hlt]
    simp only [dropAll, hd]
    obtain ⟨i1, i2, i3, i4⟩ := ih
      { s with queue := { s.queue with items := s.queue.items ++ [Reset.reset v] },
               weak := s.weak - 1 }
      (by simpa using hs)
      (fun q hq => hall q (List.mem_cons_of_mem p hq))
      (by simp; omega)
    refine ⟨by simpa using i1, ?_, by simpa using i3, ?_⟩
    · rw [i2]
      simp
      omega
    · rw [i4]
      simp
      omega

/- The store invariant is established by Pool::new and preserved by
every public API step. -/

theorem inv_new (C : Nat) (s0 : PoolSt α) (h : Pool.new α C = some s0) : Inv s0 := by
  unfold Pool.new at h
  split at h
  · cases h
    simp [Inv, ArrayQueue.new]
  · cases h

theorem drop_inv [Reset α] (p : Pooled α) (s : PoolSt α) (h : Inv s) :
    Inv (Pooled.drop p s) := by
  by_cases hs : 0 < s.strong
  · cases ho : p.object with
    | none =>
      rw [drop_none p s ho]
      exact h
    | some v =>
      rw [drop_some_strong p s v hs ho]
      unfold Inv at h ⊢
      simpa [push_capacity] using push_len_le s.queue (Reset.reset v) h
  · have hs0 : s.strong = 0 := by omega
    rw [drop_dead p s hs0]
    exact h

theorem inv_step [Default α] [Reset α] {s t : PoolSt α} (h : Inv s) (hst : Step s t) :
    Inv t := by
  cases hst with
  | take =>
    obtain ⟨hq, _, _⟩ := take_effect (α := α) s
    unfold Inv at h ⊢
    rw [hq, pop_capacity]
    exact le_trans (pop_len_le s.queue) h
  | try_take =>
    obtain ⟨hq, _⟩ := try_take_effect (α := α) s
    unfold Inv at h ⊢
    rw [hq, pop_capacity]
    exact le_trans (pop_len_le s.queue) h
  | attach v =>
    unfold Inv at h ⊢
    simpa [Pool.attach, Pooled.new] using h
  | wrapper_drop p =>
    exact drop_inv p s h
  | get_pool p =>
    unfold Inv at h ⊢
    unfold Pooled.get_pool
    split <;> simpa using h
  | clone =>
    unfold Inv at h ⊢
    simpa [Pool.clone] using h
  | pool_drop =>
    unfold Inv at h ⊢
    simpa [Pool.drop] using h

theorem inv_reachable [Default α] [Reset α] {s t : PoolSt α} (h : Inv s)
    (hr : Reachable s t) : Inv t := by
  induction hr with
  | refl => exact h
  | step _ hst ih => exact inv_step ih hst

/-- Claim C5: Pool::new panics exactly when the capacity is 0, and for
every positive capacity C the fresh pool reports capacity C, length 0,
is empty and is not full. -/
theorem spec_C5 {α : Type} (C : Nat) :
    (Pool.new α C = none ↔ C = 0) ∧
    (∀ s0 : PoolSt α, Pool.new α C = some s0 →
      Pool.capacity s0 = C ∧ Pool.len s0 = 0 ∧
      Pool.is_empty s0 = true ∧ Pool.is_full s0 = false) := by
  constructor
  · unfold Pool.new
    split
    · simp
      omega
    · simp
      omega
  · intro s0 h
    unfold Pool.new at h
    split at h
    · cases h
      simp [Pool.capacity, Pool.len, Pool.is_empty, Pool.is_full, ArrayQueue.new,
        ArrayQueue.len, ArrayQueue.is_empty, ArrayQueue.is_full]
      omega
    · cases h

/-- Witness for C5 at capacity 2. -/
theorem spec_C5_witness :
    Pool.new (Vec Nat) 2 = some (exSt 1 0 2 []) ∧
    (Pool.capacity (exSt 1 0 2 []) = 2 ∧ Pool.len (exSt 1 0 2 []) = 0 ∧
      Pool.is_empty (exSt 1 0 2 []) = true ∧ Pool.is_full (exSt 1 0 2 []) = false) := by
  refine ⟨by decide, ?_⟩
  exact (spec_C5 (α := Vec Nat) 2).2 (exSt 1 0 2 []) (by decide)

/-- Claim C2, amended: detach extracts exactly the value held
immediately before the call, and the store is never pushed to
afterwards: disposing the detached wrapper leaves the queue, hence len,
untouched and never returns the value, its only effect on the pool
being the release of the weak back-reference, which decrements in_use
by one. (The frozen claim further said in_use is unaffected by the
disposal; spec_C2_counterexample refutes that conjunct.) -/
theorem spec_C2 {α : Type} [Reset α] (p : Pooled α) (v : α) (s : PoolSt α)
    (h : p.object = some v) :
    (Pooled.detach p).1 = some v ∧
    Pooled.drop (Pooled.detach p).2 s = { s with weak := s.weak - 1 } ∧
    Pool.len (Pooled.drop (Pooled.detach p).2 s) = Pool.len s ∧
    (Pooled.drop (Pooled.detach p).2 s).queue = s.queue := by
  have hd := drop_none (Pooled.detach p).2 s (by simp [Pooled.detach])
  refine ⟨by simp [Pooled.detach, h], hd, ?_, ?_⟩
  · rw [hd]
    rfl
  · rw [hd]

/-- Witness for C2 on a wrapper holding a two-element vector. -/
theorem spec_C2_witness :
    (Pooled.detach (exW (some (exVec [1, 2] 5)))).1 = some (exVec [1, 2] 5) ∧
    Pooled.drop (Pooled.detach (exW (some (exVec [1, 2] 5)))).2 (exSt 1 1 3 []) =
      exSt 1 0 3 [] ∧
    Pool.len (Pooled.drop (Pooled.detach (exW (some (exVec [1, 2] 5)))).2
      (exSt 1 1 3 [])) = Pool.len (exSt 1 1 3 []) := by
  have h := spec_C2 (exW (some (exVec [1, 2] 5))) (exVec [1, 2] 5) (exSt 1 1 3 []) rfl
  exact ⟨h.1, h.2.1, h.2.2.1⟩

/-- Counterexample to C2 as frozen: in_use is not unaffected by the
disposal of the detached wrapper. Releasing the weak reference held by
the wrapper decrements it from 1 to 0, exactly as the detach doctest in
src/object.rs lines 44 to 47 shows. -/
theorem spec_C2_counterexample :
    ¬ Pool.in_use (Pooled.drop (Pooled.detach (exW (some (exVec [1, 2] 5)))).2
      (exSt 1 1 3 [])) = Pool.in_use (exSt 1 1 3 []) := by
  decide

/-- Claim C3: get_pool yields a live handle exactly while some strong
Pool handle survives; once the strong count is 0 it yields none, and
dropping a still held wrapper is a total, panic-free operation that
skips the return push, releasing only the weak reference. -/
theorem spec_C3 {α : Type} [Reset α] (s : PoolSt α) (p : Pooled α) :
    (0 < s.strong → (Pooled.get_pool p s).1 = some ()) ∧
    (s.strong = 0 →
      (Pooled.get_pool p s).1 = none ∧
      Pooled.drop p s = { s with weak := s.weak - 1 }) := by
  constructor
  · intro h
    simp [Pooled.get_pool, h]
  · intro h
    exact ⟨by simp [Pooled.get_pool, h], drop_dead p s h⟩

/-- Witness for C3: a live pool on the left, a dead pool on the right,
the wrapper still holding a value in both. -/
theorem spec_C3_witness :
    (Pooled.get_pool (exW (some (exVec [7] 2))) (exSt 1 1 1 [])).1 = some () ∧
    (Pooled.get_pool (exW (some (exVec [7] 2))) (exSt 0 1 1 [])).1 = none ∧
    Pooled.drop (exW (some (exVec [7] 2))) (exSt 0 1 1 []) = exSt 0 0 1 [] := by
  have h1 := (spec_C3 (exSt 1 1 1 []) (exW (some (exVec [7] 2)))).1 (by decide)
  have h2 := (spec_C3 (exSt 0 1 1 []) (exW (some (exVec [7] 2)))).2 rfl
  exact ⟨h1, h2.1, h2.2⟩

/-- Claim C1: dropping a wrapper whose slot is still present while the
store is live resets the value and attempts a non-blocking push of the
reset value; in consequence a Vec mutated while held, dropped into a
pool with room, comes back on the next take reset to the
default-equivalent state, its backing capacity intact. -/
theorem spec_C1 :
    (∀ {α : Type} [inst : Reset α] (s : PoolSt α) (p : Pooled α) (v : α),
      0 < s.strong → p.object = some v →
      Pooled.drop p s =
        { s with queue := (s.queue.push (Reset.reset v)).1, weak := s.weak - 1 }) ∧
    (∀ (s : PoolSt (Vec Nat)) (p : Pooled (Vec Nat)) (v : Vec Nat),
      0 < s.strong → p.object = some v → s.queue.items = [] → 0 < s.queue.capacity →
      (Pool.take (Pooled.drop p s)).1.object = some (Reset.reset v) ∧
      (Reset.reset v).data = (Default.default : Vec Nat).data ∧
      (Reset.reset v).cap = v.cap) := by
  constructor
  · intro α inst s p v hs ho
    exact drop_some_strong p s v hs ho
  · intro s p v hs ho hemp hcap
    have hd := drop_some_strong p s v hs ho
    have hpush := push_append s.queue (Reset.reset v) (by rw [hemp]; simpa using hcap)
    have hitems : (Pooled.drop p s).queue.items = [Reset.reset v] := by
      rw [hd]
      simp only
      rw [hpush, hemp]
      rfl
    have ht := take_of_cons (Pooled.drop p s) (Reset.reset v) [] hitems
    refine ⟨?_, rfl, rfl⟩
    rw [ht]

/-- Witness for C1: a vector mutated to hold two elements over a backing
capacity of 5 is dropped into a live, empty pool of capacity 1 and taken
out again cleared with the capacity kept. -/
theorem spec_C1_witness :
    Pooled.drop (exW (some (exVec [1, 2] 5))) (exSt 1 1 1 []) =
      exSt 1 0 1 [exVec [] 5] ∧
    (Pool.take (Pooled.drop (exW (some (exVec [1, 2] 5))) (exSt 1 1 1 []))).1.object =
      some (Reset.reset (exVec [1, 2] 5)) ∧
    (Reset.reset (exVec [1, 2] 5)).data = (Default.default : Vec Nat).data ∧
    (Reset.reset (exVec [1, 2] 5)).cap = (exVec [1, 2] 5).cap := by
  have h1 := spec_C1.1 (exSt 1 1 1 []) (exW (some (exVec [1, 2] 5))) (exVec [1, 2] 5)
    (by decide) rfl
  have h2 := spec_C1.2 (exSt 1 1 1 []) (exW (some (exVec [1, 2] 5))) (exVec [1, 2] 5)
    (by decide) rfl rfl (by decide)
  exact ⟨by rw [h1]; decide, h2.1, h2.2.1, h2.2.2⟩

/-- Claim C4: in every state reachable from a fresh pool the store never
holds more items than the capacity C, spare_capacity plus len equals
capacity (the usize subtraction cannot underflow), and returning a value
to a full store leaves the stored items untouched, the extra value being
discarded without error. -/
theorem spec_C4 {α : Type} [Default α] [Reset α] (C : Nat) (s0 s : PoolSt α)
    (h0 : Pool.new α C = some s0) (hr : Reachable s0 s) :
    Pool.len s ≤ Pool.capacity s ∧
    Pool.spare_capacity s + Pool.len s = Pool.capacity s ∧
    (∀ (p : Pooled α) (v : α), Pool.len s = Pool.capacity s → 0 < s.strong →
      p.object = some v →
      Pool.len (Pooled.drop p s) = Pool.capacity s ∧
      (Pooled.drop p s).queue.items = s.queue.items) := by
  have hinv : Inv s := inv_reachable (inv_new C s0 h0) hr
  unfold Inv at hinv
  refine ⟨hinv, ?_, ?_⟩
  · unfold Pool.spare_capacity Pool.capacity Pool.len ArrayQueue.len
    omega
  · intro p v hfull hs ho
    have hlen : s.queue.items.length = s.queue.capacity := hfull
    have hd := drop_some_strong p s v hs ho
    have hp := push_full s.queue (Reset.reset v) (by omega)
    rw [hd, hp]
    exact ⟨hfull, rfl⟩

/-- Witness for C4: pool of capacity 1, one value taken and dropped back
making the store full, then a second wrapper dropped on the full store
is discarded. -/
theorem spec_C4_witness :
    Pool.len (exSt 1 0 1 [exVec [] 0]) ≤ Pool.capacity (exSt 1 0 1 [exVec [] 0]) ∧
    Pool.spare_capacity (exSt 1 0 1 [exVec [] 0]) + Pool.len (exSt 1 0 1 [exVec [] 0]) =
      Pool.capacity (exSt 1 0 1 [exVec [] 0]) ∧
    Pool.len (Pooled.drop (exW (some (exVec [3] 7))) (exSt 1 0 1 [exVec [] 0])) =
      Pool.capacity (exSt 1 0 1 [exVec [] 0]) ∧
    (Pooled.drop (exW (some (exVec [3] 7))) (exSt 1 0 1 [exVec [] 0])).queue.items =
      (exSt 1 0 1 [exVec [] 0]).queue.items := by
  have hr : Reachable (exSt 1 0 1 []) (exSt 1 0 1 [exVec [] 0]) := by
    have r1 : Reachable (exSt 1 0 1 []) (Pool.take (exSt 1 0 1 [])).2 :=
      Reachable.step (Reachable.refl _) (Step.take _)
    have r2 := Reachable.step r1
      (Step.wrapper_drop (Pool.take (exSt 1 0 1 [])).2 (Pool.take (exSt 1 0 1 [])).1)
    exact r2
  have h := spec_C4 1 (exSt 1 0 1 []) (exSt 1 0 1 [exVec [] 0]) (by decide) hr
  have h3 := h.2.2 (exW (some (exVec [3] 7))) (exVec [3] 7) rfl (by decide) rfl
  exact ⟨h.1, h.2.1, h3.1, h3.2⟩

/-- Claim C6: taking N values (N at most C) from a fresh pool leaves
in_use at N and len at 0, every value being freshly default
constructed; dropping all N wrappers then leaves in_use at 0 and len
at N. -/
theorem spec_C6 {α : Type} [Default α] [Reset α] (C N : Nat) (s0 : PoolSt α)
    (hN : N ≤ C) (h0 : Pool.new α C = some s0) :
    Pool.in_use (takeN s0 N).2 = N ∧
    Pool.len (takeN s0 N).2 = 0 ∧
    (∀ p ∈ (takeN s0 N).1, p.object = some Default.default) ∧
    Pool.in_use (dropAll (takeN s0 N).1 (takeN s0 N).2) = 0 ∧
    Pool.len (dropAll (takeN s0 N).1 (takeN s0 N).2) = N := by
  have hs0 : s0 = { strong := 1, weak := 0, queue := ArrayQueue.new α C } := by
    unfold Pool.new at h0
    split at h0
    · cases h0
      rfl
    · cases h0
  subst hs0
  obtain ⟨ht2, htlen, htall⟩ := takeN_of_empty N
    { strong := 1, weak := 0, queue := ArrayQueue.new α C } rfl
  obtain ⟨d1, d2, d3, d4⟩ := dropAll_effect
    (takeN { strong := 1, weak := 0, queue := ArrayQueue.new α C } N).1
    (takeN { strong := 1, weak := 0, queue := ArrayQueue.new α C } N).2
    (by rw [ht2]; exact Nat.one_pos)
    (fun p hp => by rw [htall p hp]; rfl)
    (by rw [ht2, htlen]; simpa [ArrayQueue.new] using hN)
  refine ⟨?_, ?_, htall, ?_, ?_⟩
  · rw [ht2]
    simp [Pool.in_use]
  · rw [ht2]
    simp [Pool.len, ArrayQueue.len, ArrayQueue.new]
  · unfold Pool.in_use
    rw [d2, ht2, htlen]
    simp
  · unfold Pool.len ArrayQueue.len
    rw [d4, ht2, htlen]
    simp [ArrayQueue.new]

/-- Witness for C6 at C = 2, N = 2. -/
theorem spec_C6_witness :
    Pool.in_use (takeN (exSt 1 0 2 []) 2).2 = 2 ∧
    Pool.len (takeN (exSt 1 0 2 []) 2).2 = 0 ∧
    (∀ p ∈ (takeN (exSt 1 0 2 []) 2).1, p.object = some Default.default) ∧
    Pool.in_use (dropAll (takeN (exSt 1 0 2 []) 2).1 (takeN (exSt 1 0 2 []) 2).2) = 0 ∧
    Pool.len (dropAll (takeN (exSt 1 0 2 []) 2).1 (takeN (exSt 1 0 2 []) 2).2) = 2 :=
  spec_C6 2 2 (exSt 1 0 2 []) (by decide) (by decide)

/-- Claim C7: try_take is absent exactly on an empty store, never
manufactures a value (a success returns precisely the popped front
object, removing it); on a capacity 1 pool the concrete scenario holds:
absent when fresh, present and reset after one take and drop, absent
again immediately after. -/
theorem spec_C7 {α : Type} (s : PoolSt α) :
    ((Pool.try_take s).1 = none ↔ s.queue.items = []) ∧
    (∀ (x : α) (rest : List α), s.queue.items = x :: rest →
      (Pool.try_take s).1 = some { object := some x } ∧
      (Pool.try_take s).2.queue.items = rest) ∧
    ((Pool.try_take (exSt 1 0 1 [])).1 = none ∧
      (Pool.try_take (Pooled.drop (Pool.take (exSt 1 0 1 [])).1
        (Pool.take (exSt 1 0 1 [])).2)).1 =
        some (exW (some (Reset.reset (Default.default : Vec Nat)))) ∧
      (Pool.try_take (Pool.try_take (Pooled.drop (Pool.take (exSt 1 0 1 [])).1
        (Pool.take (exSt 1 0 1 [])).2)).2).1 = none) := by
  refine ⟨?_, ?_, by decide, by decide, by decide⟩
  · rcases hq : s.queue.items with _ | ⟨x, rest⟩
    · rw [try_take_of_empty s hq]
      simp [hq]
    · rw [try_take_of_cons s x rest hq]
      simp [hq]
  · intro x rest hq
    rw [try_take_of_cons s x rest hq]
    exact ⟨rfl, rfl⟩

/-- Witness for C7 on a store holding two vectors. -/
theorem spec_C7_witness :
    (Pool.try_take (exSt 1 1 2 [exVec [5] 9, exVec [] 1])).1 =
      some (exW (some (exVec [5] 9))) ∧
    (Pool.try_take (exSt 1 1 2 [exVec [5] 9, exVec [] 1])).2.queue.items =
      [exVec [] 1] := by
  have h := (spec_C7 (exSt 1 1 2 [exVec [5] 9, exVec [] 1])).2.1
    (exVec [5] 9) [exVec [] 1] rfl
  exact ⟨h.1, h.2⟩

/-- Claim C9: attach wraps an external value without consuming pool
capacity, leaving len unchanged while incrementing in_use by one just
as take does; in consequence in_use is not bounded by capacity, since
taking C plus 1 values from a fresh pool pushes in_use past C. -/
theorem spec_C9 {α : Type} [Default α] [Reset α] :
    (∀ (s : PoolSt α) (v : α),
      (Pool.attach s v).2.queue = s.queue ∧
      Pool.len (Pool.attach s v).2 = Pool.len s ∧
      Pool.in_use (Pool.attach s v).2 = Pool.in_use s + 1 ∧
      (Pool.attach s v).1.object = some v) ∧
    (∀ s : PoolSt α, Pool.in_use (Pool.take s).2 = Pool.in_use s + 1) ∧
    (∀ (C : Nat) (s0 : PoolSt α), Pool.new α C = some s0 →
      Pool.capacity (takeN s0 (C + 1)).2 < Pool.in_use (takeN s0 (C + 1)).2) := by
  refine ⟨?_, ?_, ?_⟩
  · intro s v
    exact ⟨rfl, rfl, rfl, rfl⟩
  · intro s
    exact (take_effect s).2.1
  · intro C s0 h0
    have hs0 : s0 = { strong := 1, weak := 0, queue := ArrayQueue.new α C } := by
      unfold Pool.new at h0
      split at h0
      · cases h0
        rfl
      · cases h0
    subst hs0
    obtain ⟨ht2, _, _⟩ := takeN_of_empty (C + 1)
      { strong := 1, weak := 0, queue := ArrayQueue.new α C } rfl
    rw [ht2]
    unfold Pool.capacity Pool.in_use ArrayQueue.new
    simp

/-- Witness for C9: attach onto a one-slot pool, a take, and an
overfull in_use of 2 on a capacity 1 pool. -/
theorem spec_C9_witness :
    (Pool.attach (exSt 1 0 1 []) (exVec [4] 4)).2.queue = (exSt 1 0 1 []).queue ∧
    Pool.in_use (Pool.attach (exSt 1 0 1 []) (exVec [4] 4)).2 = 1 ∧
    Pool.in_use (Pool.take (exSt 1 0 1 [])).2 = 1 ∧
    Pool.capacity (takeN (exSt 1 0 1 []) 2).2 < Pool.in_use (takeN (exSt 1 0 1 []) 2).2 := by
  have h := spec_C9 (α := Vec Nat)
  exact ⟨(h.1 (exSt 1 0 1 []) (exVec [4] 4)).1,
    (h.1 (exSt 1 0 1 []) (exVec [4] 4)).2.2.1,
    h.2.1 (exSt 1 0 1 []),
    h.2.2 1 (exSt 1 0 1 []) (by decide)⟩

/-- Claim C10: every wrapper produced by take, try_take or attach holds
a present slot; mutation through deref_mut keeps it present; and on a
present slot the assertions in deref and detach cannot fire. Detach is
the only public operation that empties the slot, and it consumes the
wrapper. -/
theorem spec_C10 {α : Type} [Default α] [Reset α] :
    (∀ s : PoolSt α, (Pool.take s).1.object.isSome = true) ∧
    (∀ (s : PoolSt α) (q : Pooled α), (Pool.try_take s).1 = some q →
      q.object.isSome = true) ∧
    (∀ (s : PoolSt α) (v : α), (Pool.attach s v).1.object.isSome = true) ∧
    (∀ (p : Pooled α) (f : α → α), p.object.isSome = true →
      ∃ q : Pooled α, Pooled.deref_mut p f = some q ∧ q.object.isSome = true) ∧
    (∀ p : Pooled α, p.object.isSome = true →
      Pooled.deref p ≠ none ∧ (Pooled.detach p).1 ≠ none) := by
  refine ⟨?_, ?_, ?_, ?_, ?_⟩
  · intro s
    rcases hq : s.queue.pop with ⟨popped, q⟩
    simp [Pool.take, hq, Pooled.new]
  · intro s q h
    rcases hq : s.queue.items with _ | ⟨x, rest⟩
    · rw [try_take_of_empty s hq] at h
      cases h
    · rw [try_take_of_cons s x rest hq] at h
      cases h
      rfl
  · intro s v
    simp [Pool.attach, Pooled.new]
  · intro p f h
    obtain ⟨o⟩ := p
    cases o with
    | none => cases h
    | some v => exact ⟨{ object := some (f v) }, rfl, rfl⟩
  · intro p h
    obtain ⟨o⟩ := p
    cases o with
    | none => cases h
    | some v => exact ⟨by simp [Pooled.deref], by simp [Pooled.detach]⟩

/-- Witness for C10 on concrete one-slot pools and wrappers. -/
theorem spec_C10_witness :
    (Pool.take (exSt 1 0 1 [exVec [8] 8])).1.object.isSome = true ∧
    (exW (some (exVec [8] 8))).object.isSome = true ∧
    (Pool.attach (exSt 1 0 1 []) (exVec [4] 4)).1.object.isSome = true ∧
    (∃ q : Pooled (Vec Nat),
      Pooled.deref_mut (exW (some (exVec [] 2))) (fun v => { v with data := [9] }) =
        some q ∧ q.object.isSome = true) ∧
    (Pooled.deref (exW (some (exVec [] 2))) ≠ none ∧
      (Pooled.detach (exW (some (exVec [] 2)))).1 ≠ none) := by
  have h := spec_C10 (α := Vec Nat)
  exact ⟨h.1 (exSt 1 0 1 [exVec [8] 8]),
    h.2.1 (exSt 1 0 1 [exVec [8] 8]) (exW (some (exVec [8] 8))) (by decide),
    h.2.2.1 (exSt 1 0 1 []) (exVec [4] 4),
    h.2.2.2.1 (exW (some (exVec [] 2))) (fun v => { v with data := [9] }) rfl,
    h.2.2.2.2 (exW (some (exVec [] 2))) rfl⟩

/-- Claim C8: every provided Reset implementation is idempotent and
infallible, the reset result is observably the default-constructed
value with the backing capacity kept; the pass-through implementations
(Box, mutable reference) delegate to the pointee and preserve
idempotence, and tuples of resettable components (arity 1 through 13,
nested pairs in this model) are reset componentwise in declared
order. -/
theorem spec_C8 :
    (∀ {α : Type} (v : Vec α), Reset.reset (Reset.reset v) = Reset.reset v ∧
      (Reset.reset v).data = (Default.default : Vec α).data ∧
      (Reset.reset v).cap = v.cap) ∧
    (∀ v : Str, Reset.reset (Reset.reset v) = Reset.reset v ∧
      (Reset.reset v).data = (Default.default : Str).data ∧
      (Reset.reset v).cap = v.cap) ∧
    (∀ {α : Type} (v : VecDeque α), Reset.reset (Reset.reset v) = Reset.reset v ∧
      (Reset.reset v).data = [] ∧ (Reset.reset v).cap = v.cap) ∧
    (∀ {α : Type} (v : BinaryHeap α), Reset.reset (Reset.reset v) = Reset.reset v ∧
      (Reset.reset v).data = [] ∧ (Reset.reset v).cap = v.cap) ∧
    (∀ {κ υ : Type} (v : HashMap κ υ), Reset.reset (Reset.reset v) = Reset.reset v ∧
      (Reset.reset v).entries = [] ∧ (Reset.reset v).cap = v.cap) ∧
    (∀ {κ : Type} (v : HashSet κ), Reset.reset (Reset.reset v) = Reset.reset v ∧
      (Reset.reset v).entries = [] ∧ (Reset.reset v).cap = v.cap) ∧
    (∀ v : PathBuf, Reset.reset (Reset.reset v) = Reset.reset v ∧
      (Reset.reset v).data = [] ∧ (Reset.reset v).cap = v.cap) ∧
    (∀ v : OsString, Reset.reset (Reset.reset v) = Reset.reset v ∧
      (Reset.reset v).data = [] ∧ (Reset.reset v).cap = v.cap) ∧
    (∀ {α : Type} [ia : Reset α] (b : Box α),
      Reset.reset b = { get := Reset.reset b.get } ∧
      ((∀ a : α, Reset.reset (Reset.reset a) = Reset.reset a) →
        Reset.reset (Reset.reset b) = Reset.reset b)) ∧
    (∀ {α : Type} [ia : Reset α] (b : MutRef α),
      Reset.reset b = { get := Reset.reset b.get }) ∧
    (∀ {A B : Type} [ia : Reset A] [ib : Reset B] (a : A) (b : B),
      Reset.reset (a, b) = (Reset.reset a, Reset.reset b) ∧
      ((∀ x : A, Reset.reset (Reset.reset x) = Reset.reset x) →
        (∀ y : B, Reset.reset (Reset.reset y) = Reset.reset y) →
        Reset.reset (Reset.reset (a, b)) = Reset.reset (a, b))) ∧
    (∀ t : Str × Str × Str × Str × Str × Str × Str × Str × Str × Str × Str × Str × Str,
      Reset.reset t =
        (Reset.reset t.1, Reset.reset t.2.1, Reset.reset t.2.2.1,
          Reset.reset t.2.2.2.1, Reset.reset t.2.2.2.2.1,
          Reset.reset t.2.2.2.2.2.1, Reset.reset t.2.2.2.2.2.2.1,
          Reset.reset t.2.2.2.2.2.2.2.1, Reset.reset t.2.2.2.2.2.2.2.2.1,
          Reset.reset t.2.2.2.2.2.2.2.2.2.1, Reset.reset t.2.2.2.2.2.2.2.2.2.2.1,
          Reset.reset t.2.2.2.2.2.2.2.2.2.2.2.1,
          Reset.reset t.2.2.2.2.2.2.2.2.2.2.2.2)) := by
  refine ⟨fun v => ⟨rfl, rfl, rfl⟩, fun v => ⟨rfl, rfl, rfl⟩, fun v => ⟨rfl, rfl, rfl⟩,
    fun v => ⟨rfl, rfl, rfl⟩, fun v => ⟨rfl, rfl, rfl⟩, fun v => ⟨rfl, rfl, rfl⟩,
    fun v => ⟨rfl, rfl, rfl⟩, fun v => ⟨rfl, rfl, rfl⟩,
    ?_, ?_, ?_, fun t => rfl⟩
  · intro α ia b
    refine ⟨rfl, fun h => ?_⟩
    show Box.mk (Reset.reset (Reset.reset b.get)) = Box.mk (Reset.reset b.get)
    rw [h]
  · intro α ia b
    rfl
  · intro A B ia ib a b
    refine ⟨rfl, fun ha hb => ?_⟩
    show (Reset.reset (Reset.reset a), Reset.reset (Reset.reset b)) =
      (Reset.reset a, Reset.reset b)
    rw [ha, hb]

/-- Witness for C8: idempotence over a concrete vector and a concrete
path buffer, delegation over a concrete Box, and componentwise reset of
a concrete pair. -/
theorem spec_C8_witness :
    Reset.reset (Reset.reset (exVec [1] 4)) = Reset.reset (exVec [1] 4) ∧
    (Reset.reset (exVec [1] 4)).data = (Default.default : Vec Nat).data ∧
    Reset.reset (Reset.reset (PathBuf.mk [] 3)) = Reset.reset (PathBuf.mk [] 3) ∧
    Reset.reset (Reset.reset (OsString.mk [] 3)) = Reset.reset (OsString.mk [] 3) ∧
    Reset.reset (Reset.reset (Box.mk (exVec [2] 6))) =
      Reset.reset (Box.mk (exVec [2] 6)) ∧
    Reset.reset (exVec [3] 1, Str.mk [] 2) =
      (Reset.reset (exVec [3] 1), Reset.reset (Str.mk [] 2)) ∧
    Reset.reset (Reset.reset (exVec [3] 1, Str.mk [] 2)) =
      Reset.reset (exVec [3] 1, Str.mk [] 2) := by
  have h := spec_C8
  exact ⟨(h.1 (exVec [1] 4)).1, (h.1 (exVec [1] 4)).2.1,
    (h.2.2.2.2.2.2.1 (PathBuf.mk [] 3)).1,
    (h.2.2.2.2.2.2.2.1 (OsString.mk [] 3)).1,
    (h.2.2.2.2.2.2.2.2.1 (Box.mk (exVec [2] 6))).2 (fun a => (h.1 a).1),
    (h.2.2.2.2.2.2.2.2.2.2.1 (exVec [3] 1) (Str.mk [] 2)).1,
    (h.2.2.2.2.2.2.2.2.2.2.1 (exVec [3] 1) (Str.mk [] 2)).2
      (fun x => (h.1 x).1) (fun y => (h.2.1 y).1)⟩

end DynPool
